import Mathlib

/-!
Verification of the vidmaker timeline/caption editor
(`src/app/pages/index.vue` and the server MP4 export handler).

Times are modelled as exact rationals (`ℚ`); the JavaScript numbers of the
source are IEEE doubles, but every claim under study is about the exact
arithmetic the expressions denote.  Strings are Lean `String`s; the
whitespace handling of the source (`replace(/\s+/g,' ').trim()` followed by
`split(' ').filter(Boolean)`) is modelled by an explicit word splitter over
the character list.  Opaque `crypto.randomUUID()` cue/clip identifiers are
dropped from the records: no claim depends on them ("differing at most in
cue ids").  `Number.isFinite` guards in the source are vacuous here because
every rational is finite.
-/

/-- Clip kinds, from the `kind: 'video' | 'image' | 'audio'` union of
`StoredClip`. -/
inductive ClipKind
  | video
  | image
  | audio
  deriving DecidableEq, Repr

/-- A timeline clip (`StoredClip` in the source, minus the opaque
`id`/`fileId`/`name`/`url` identity fields that no modelled operation
reads). -/
structure Clip where
  kind : ClipKind
  start : ℚ
  duration : ℚ
  sourceOffset : ℚ
  sourceDuration : ℚ
  volume : ℚ
  muted : Bool
  previousVolume : ℚ
  deriving DecidableEq, Repr

/-- Overlay kinds, from `kind: 'title' | 'sticker'`. -/
inductive OverlayKind
  | title
  | sticker
  deriving DecidableEq, Repr

/-- A timed overlay (`OverlayItem` in the source, minus the opaque `id`). -/
structure OverlayItem where
  kind : OverlayKind
  text : String
  start : ℚ
  duration : ℚ
  x : ℚ
  y : ℚ
  size : ℚ
  color : String
  bg : String
  deriving DecidableEq, Repr

/-- A word-level caption cue (`CaptionCue` in the source, minus the opaque
`id`).  The source field `end` is a Lean keyword and is called `endTime`
here. -/
structure CaptionCue where
  start : ℚ
  endTime : ℚ
  text : String
  deriving DecidableEq, Repr

/-- One speech-recognizer chunk (`AsrChunk`): optional text (the source
reads `chunk.text ?? ''`, so a missing text is the empty string) and an
optional `[start, end]` timestamp pair. -/
structure AsrChunk where
  text : String
  timestamp : Option (ℚ × ℚ)
  deriving DecidableEq, Repr

/-- A cue inside the rendering window (`CaptionWindowCue`): the cue plus
the `isActive` flag and the highlight progress. -/
structure CaptionWindowCue extends CaptionCue where
  isActive : Bool
  activeProgress : ℚ
  deriving DecidableEq, Repr

/-- The observable state of an underlying `HTMLMediaElement` as the
synchronizer touches it: play position, paused flag, output volume. -/
structure MediaElement where
  currentTime : ℚ
  paused : Bool
  volume : ℚ
  deriving DecidableEq, Repr

/-- Constant `MIN_CLIP_DURATION = 0.2` of the source. -/
def MIN_CLIP_DURATION : ℚ := 1/5

/-- Constant `CAPTION_WINDOW_WORD_COUNT = 3` of the source. -/
def CAPTION_WINDOW_WORD_COUNT : ℕ := 3

/-- Function `inRange(time, start, duration)` — membership of `time` in the
half-open interval `[start, start + duration)`. -/
def inRange (time start duration : ℚ) : Bool :=
  decide (start ≤ time) && decide (time < start + duration)

/-- Function `toStepTime(value) = Math.round(value * 20) / 20`: quantization of drag
positions to the 1/20 s step.  `Math.round` rounds half-way cases towards
positive infinity, i.e. `Math.round(x) = ⌊x + 1/2⌋`. -/
def toStepTime (value : ℚ) : ℚ :=
  (⌊value * 20 + 1/2⌋ : ℚ) / 20

/-- End of a clip on the project clock (`clip.start + clip.duration`). -/
def clipEnd (clip : Clip) : ℚ := clip.start + clip.duration

/-- End of an overlay on the project clock (`item.start + item.duration`). -/
def overlayEnd (item : OverlayItem) : ℚ := item.start + item.duration

/-- Model of `Math.max(...list)` for a non-empty list, `0` for the empty one — the
shape used twice inside `projectDuration` (`list.length ? Math.max(...) : 0`). -/
def maxOr0 : List ℚ → ℚ
  | [] => 0
  | x :: xs => xs.foldl max x

/-- The `projectDuration` computed property: the maximum of the clips' and
the overlays' largest end times, each defaulting to `0` when the collection
is empty. -/
def projectDuration (clips : List Clip) (overlays : List OverlayItem) : ℚ :=
  max (maxOr0 (clips.map clipEnd)) (maxOr0 (overlays.map overlayEnd))

/-- Drag modes of `startClipDrag` / `onPointerMove`
(`'move' | 'trim-left' | 'trim-right'`). -/
inductive DragMode
  | move
  | trimLeft
  | trimRight
  deriving DecidableEq, Repr

/-- One complete drag gesture on a clip, from `onPointerMove`
(lines 912–957 of `index.vue`).  `rawDelta` is the pointer movement
`(event.clientX - pointerStartX) / PX_PER_SECOND`; the handler quantizes it
with `toStepTime` first.  Every `pointermove` recomputes the clip from the
`dragState.initial*` snapshot, so the state after the gesture is a function
of the initial clip and the final delta alone; `clip` here is that initial
snapshot. -/
def onPointerMoveClip (mode : DragMode) (clip : Clip) (rawDelta : ℚ) : Clip :=
  let deltaSec := toStepTime rawDelta
  match mode with
  | DragMode.move =>
      { clip with start := max 0 (toStepTime (clip.start + deltaSec)) }
  | DragMode.trimRight =>
      let maxDur := if clip.kind = ClipKind.image then 120
        else max MIN_CLIP_DURATION (clip.sourceDuration - clip.sourceOffset)
      let newDuration := min maxDur (max MIN_CLIP_DURATION (toStepTime (clip.duration + deltaSec)))
      { clip with duration := newDuration }
  | DragMode.trimLeft =>
      if clip.kind = ClipKind.image then
        let nextStart := max 0 (toStepTime (clip.start + deltaSec))
        let startShift := nextStart - clip.start
        let newDuration := max MIN_CLIP_DURATION (toStepTime (clip.duration - startShift))
        { clip with start := nextStart, duration := newDuration }
      else
        let nextOffset := max 0 (min (clip.sourceOffset + deltaSec)
          (clip.sourceDuration - MIN_CLIP_DURATION))
        let sourceDelta := nextOffset - clip.sourceOffset
        let newStart := max 0 (toStepTime (clip.start + sourceDelta))
        let newDuration := max MIN_CLIP_DURATION (toStepTime (clip.duration - sourceDelta))
        { clip with sourceOffset := toStepTime nextOffset, start := newStart, duration := newDuration }

/-- The four numeric fields `updateSelectedClipField` accepts. -/
inductive ClipField
  | start
  | duration
  | volume
  | sourceOffset
  deriving DecidableEq, Repr

/-- Function `updateSelectedClipField(field, value)` (lines 807–847) applied to the
selected clip.  `parsed` is the already-parsed finite number (on a
non-finite parse the handler returns without mutating, which has no
rational counterpart). -/
def updateSelectedClipField (clip : Clip) (field : ClipField) (parsed : ℚ) : Clip :=
  match field with
  | ClipField.start => { clip with start := max 0 parsed }
  | ClipField.duration =>
      let maxDuration := if clip.kind = ClipKind.image
        then max MIN_CLIP_DURATION parsed
        else max MIN_CLIP_DURATION (clip.sourceDuration - clip.sourceOffset)
      { clip with duration := min (max MIN_CLIP_DURATION parsed) maxDuration }
  | ClipField.sourceOffset =>
      if clip.kind = ClipKind.image then
        { clip with sourceOffset := 0 }
      else
        let nextOffset := max 0 (min parsed (clip.sourceDuration - MIN_CLIP_DURATION))
        let newDuration := min clip.duration (max MIN_CLIP_DURATION (clip.sourceDuration - nextOffset))
        { clip with sourceOffset := nextOffset, duration := newDuration }
  | ClipField.volume =>
      let v := max 0 (min 2 parsed)
      if clip.kind = ClipKind.video then
        let newPrev := if 0 < v then v else clip.previousVolume
        { clip with volume := v, muted := decide (v = 0), previousVolume := newPrev }
      else
        { clip with volume := v }

/-- Any single clip mutation: a drag gesture or an inspector field edit. -/
inductive ClipMutation
  | drag (mode : DragMode) (rawDelta : ℚ)
  | field (f : ClipField) (value : ℚ)

/-- Dispatch of a single mutation to the corresponding handler. -/
def applyClipMutation : ClipMutation → Clip → Clip
  | ClipMutation.drag mode rawDelta, clip => onPointerMoveClip mode clip rawDelta
  | ClipMutation.field f value, clip => updateSelectedClipField clip f value

/-- The invariant claimed by C3: duration at least `MIN_CLIP_DURATION`,
and for non-image clips a source offset inside
`[0, sourceDuration - MIN_CLIP_DURATION]`. -/
def clipWellFormed (c : Clip) : Prop :=
  MIN_CLIP_DURATION ≤ c.duration ∧
    (c.kind ≠ ClipKind.image →
      0 ≤ c.sourceOffset ∧ c.sourceOffset ≤ c.sourceDuration - MIN_CLIP_DURATION)

/-- The invariant the code actually maintains: the trim-left gesture stores
`toStepTime(nextOffset)`, which can exceed the clamp bound
`sourceDuration - MIN_CLIP_DURATION` by up to half a quantization step
(`1/40` s). -/
def clipWellFormedQuantized (c : Clip) : Prop :=
  MIN_CLIP_DURATION ≤ c.duration ∧
    (c.kind ≠ ClipKind.image →
      0 ≤ c.sourceOffset ∧ c.sourceOffset ≤ c.sourceDuration - MIN_CLIP_DURATION + 1/40)

/-- Maximal runs of non-separator characters of a character list, with the
current run accumulated in reverse in `acc`.  With `sep` the whitespace
test this is the word list produced by the source pipeline
`replace(/\s+/g, ' ').trim()` + `split(' ').filter(Boolean)`. -/
def wordsAux (sep : Char → Bool) : List Char → List Char → List (List Char)
  | [], acc => if acc.isEmpty then [] else [acc.reverse]
  | c :: rest, acc =>
    if sep c then
      if acc.isEmpty then wordsAux sep rest [] else acc.reverse :: wordsAux sep rest []
    else wordsAux sep rest (c :: acc)

/-- Function `normalizeCaptionText(text) = text.replace(/\s+/g, ' ').trim()`:
maximal whitespace-free runs joined by single spaces. -/
def normalizeCaptionText (text : String) : String :=
  String.intercalate (" ") ((wordsAux Char.isWhitespace text.data []).map (fun cs => String.mk cs))

/-- Model of `text.split(' ').filter(Boolean)` — the non-empty fragments between
single-space separators. -/
def splitWords (text : String) : List String :=
  (wordsAux (fun c => c = ' ') text.data []).map (fun cs => String.mk cs)

/-- Model of `list.map((item, index) => ...)` with the running index threaded
explicitly. -/
def mapWithIndexFrom {α β : Type} (f : ℕ → α → β) : ℕ → List α → List β
  | _, [] => []
  | i, a :: rest => f i a :: mapWithIndexFrom f (i + 1) rest

/-- JavaScript's `Array.prototype.map` with the element index. -/
def mapWithIndex {α β : Type} (f : ℕ → α → β) (l : List α) : List β :=
  mapWithIndexFrom f 0 l

/-- The even word subdivision loop shared verbatim by `buildCaptionCues`
and `normalizeStoredCaptionCues` (`words.forEach((word, index) => ...)`):
the chunk span is split evenly by word count, the first word's start and
the last word's end are pinned to the chunk boundaries, and every produced
interval is widened to at least `0.08` s. -/
def subdivideWords (safeStart safeEnd : ℚ) (words : List String) : List CaptionCue :=
  let chunkDuration := max (1/5) (safeEnd - safeStart)
  let wordDuration := chunkDuration / (words.length : ℚ)
  mapWithIndex (fun index word =>
    let start := safeStart + wordDuration * (index : ℚ)
    let e := if index = words.length - 1 then safeEnd else min safeEnd (start + wordDuration)
    { start := start, endTime := max (start + 2/25) e, text := word }) words

/-- The chunk loop of `buildCaptionCues` (lines 1512–1547), with the
running `cursor` made explicit.  A chunk whose text normalizes to empty is
skipped before its timestamp is read; otherwise a missing timestamp is
replaced by `[cursor, cursor + 2]`, the span is sanitized
(`safeStart = max(0, start)`, `safeEnd = max(safeStart + 0.2, end)`), the
words are emitted by even subdivision, and the cursor advances to
`safeEnd`. -/
def buildCuesAux : List AsrChunk → ℚ → List CaptionCue
  | [], _ => []
  | chunk :: rest, cursor =>
    let text := normalizeCaptionText chunk.text
    if text = "" then buildCuesAux rest cursor
    else
      let ts := match chunk.timestamp with
        | some pair => pair
        | none => (cursor, cursor + 2)
      let safeStart := max 0 ts.1
      let safeEnd := max (safeStart + 1/5) ts.2
      let words := splitWords text
      if words.isEmpty then buildCuesAux rest safeEnd
      else subdivideWords safeStart safeEnd words ++ buildCuesAux rest safeEnd

/-- Function `buildCaptionCues(rawChunks, fallbackDuration)`: the chunk loop starting
from cursor `0`, followed by the placeholder cue
`[0, max(2, fallbackDuration)]` with sentinel text when no cue was
produced. -/
def buildCaptionCues (rawChunks : List AsrChunk) (fallbackDuration : ℚ) : List CaptionCue :=
  let cues := buildCuesAux rawChunks 0
  if cues.isEmpty then
    [{ start := 0, endTime := max 2 fallbackDuration, text := "No speech detected" }]
  else cues

/-- The per-cue body of the `normalizeStoredCaptionCues` loop
(lines 1471–1510): sanitize the span, keep a zero-or-one-word cue as a
single cue (dropping it when the text is empty), and re-split a multi-word
cue by even subdivision. -/
def normalizeStoredCue (cue : CaptionCue) : List CaptionCue :=
  let text := normalizeCaptionText cue.text
  let safeStart := max 0 cue.start
  let safeEnd := max (safeStart + 1/5) cue.endTime
  let words := splitWords text
  if words.length ≤ 1 then
    if text = "" then [] else [{ start := safeStart, endTime := safeEnd, text := text }]
  else
    subdivideWords safeStart safeEnd words

/-- Function `normalizeStoredCaptionCues(rawCues)` — the loop over the stored cues,
emitting the per-cue results in order. -/
def normalizeStoredCaptionCues : List CaptionCue → List CaptionCue
  | [] => []
  | cue :: rest => normalizeStoredCue cue ++ normalizeStoredCaptionCues rest

/-- JavaScript's `Array.prototype.findIndex`, with `none` for `-1`. -/
def findIndexFrom {α : Type} (p : α → Bool) : List α → Option ℕ
  | [] => none
  | a :: rest => if p a then some 0 else (findIndexFrom p rest).map (fun i => i + 1)

/-- Function `getCaptionWindowForTime(time)` (lines 1037–1054): find the first cue
whose interval `[start, end)` contains `time`; if none, the window is
empty; otherwise slice the fixed 3-cue group the active index falls into
and flag exactly the active cue, with its highlight progress
`(time - start) / max(0.001, end - start)` clamped to `[0, 1]`. -/
def getCaptionWindowForTime (captions : List CaptionCue) (time : ℚ) : List CaptionWindowCue :=
  match findIndexFrom (fun cue => inRange time cue.start (cue.endTime - cue.start)) captions with
  | none => []
  | some activeIndex =>
    let total := captions.length
    let start := activeIndex / CAPTION_WINDOW_WORD_COUNT * CAPTION_WINDOW_WORD_COUNT
    let stop := min total (start + CAPTION_WINDOW_WORD_COUNT)
    mapWithIndex (fun index cue =>
      let progress := if start + index = activeIndex
        then min 1 (max 0 ((time - cue.start) / max (1/1000) (cue.endTime - cue.start)))
        else 0
      { toCaptionCue := cue, isActive := decide (start + index = activeIndex),
        activeProgress := progress })
      ((captions.drop start).take (stop - start))

/-- The caption window exactly as claim C8 words it, for comparison with
`getCaptionWindowForTime`: `i` the first index whose cue interval
`[start, end)` contains `time`; the returned cues are those at indices
`[⌊i/3⌋*3, min(length, ⌊i/3⌋*3 + 3))`; exactly the cue at index `i` is
active, with progress `(time - start)/(end - start)` clamped to `[0, 1]`
(no `0.001` divisor floor). -/
def captionWindowClaimed (captions : List CaptionCue) (time : ℚ) : List CaptionWindowCue :=
  match findIndexFrom (fun cue => decide (cue.start ≤ time) && decide (time < cue.endTime)) captions with
  | none => []
  | some activeIndex =>
    let total := captions.length
    let start := activeIndex / CAPTION_WINDOW_WORD_COUNT * CAPTION_WINDOW_WORD_COUNT
    let stop := min total (start + CAPTION_WINDOW_WORD_COUNT)
    mapWithIndex (fun index cue =>
      let progress := if start + index = activeIndex
        then min 1 (max 0 ((time - cue.start) / (cue.endTime - cue.start)))
        else 0
      { toCaptionCue := cue, isActive := decide (start + index = activeIndex),
        activeProgress := progress })
      ((captions.drop start).take (stop - start))

/-- Function `getOutputVolume(clip)`: `0` for a muted video, else the configured
volume. -/
def getOutputVolume (clip : Clip) : ℚ :=
  if clip.kind = ClipKind.video ∧ clip.muted = true then 0 else clip.volume

/-- One clip's slice of `syncPreviewMedia(forceSeek)` (lines 659–715).  The
loop touches each playable clip's element independently: set the output
volume; if the clip's interval contains the timeline time, seek to the
clip-local position `timelineTime - start + sourceOffset` when forced or
when the drift exceeds `0.2` s (otherwise leave the position alone), then
play or pause with the transport; otherwise pause unconditionally. -/
def syncClipMedia (clip : Clip) (element : MediaElement) (timelineTime : ℚ)
    (playing : Bool) (forceSeek : Bool) : MediaElement :=
  let element1 : MediaElement := { element with volume := getOutputVolume clip }
  if inRange timelineTime clip.start clip.duration then
    let localTime := timelineTime - clip.start + clip.sourceOffset
    let element2 := if forceSeek || decide ((1:ℚ)/5 < |element1.currentTime - localTime|)
      then { element1 with currentTime := localTime }
      else element1
    if playing then { element2 with paused := false } else { element2 with paused := true }
  else
    { element1 with paused := true }

/-- Function `convertWebmToMp4(webmBlob)` (lines 1405–1435) up to its interaction
with the network: the recorded bytes are `webmBlob`, and the whole
`fetch('/api/export-mp4', ...)`-and-read step is the oracle
`fetchExportMp4` (universally quantified in the theorem: the zero-byte
throw happens before the oracle can be consulted). -/
def convertWebmToMp4 (webmBlob : List ℕ)
    (fetchExportMp4 : List ℕ → Except String (List ℕ)) : Except String (List ℕ) :=
  if webmBlob.length = 0 then
    Except.error ("Rendered video buffer is empty. Please add at least one playable clip and retry.")
  else
    fetchExportMp4 webmBlob

/-- The server `defineEventHandler` of the export endpoint
(`server/api/export-mp4`): the concatenated request body is `input`; an
empty body is rejected with a 400 `createError` before the ffmpeg binary is
even looked up, a missing binary is a 500, and `runFfmpeg` (the spawned
transcoder, an oracle here) either succeeds with the MP4 bytes or fails
(surfaced as a 500 by the framework). -/
def exportMp4Handler (input : List ℕ) (ffmpegStatic : Option String)
    (runFfmpeg : String → List ℕ → Except String (List ℕ)) : Except (ℕ × String) (List ℕ) :=
  if input.length = 0 then
    Except.error (400, "Missing video payload")
  else
    match ffmpegStatic with
    | none => Except.error (500, "ffmpeg binary unavailable")
    | some path =>
      match runFfmpeg path input with
      | Except.ok output => Except.ok output
      | Except.error message => Except.error (500, message)

/- ------------------------------------------------------------------ -/
/- Helper lemmas.                                                      -/
/- ------------------------------------------------------------------ -/

lemma foldr_max_zero_nonneg (l : List ℚ) : 0 ≤ l.foldr max 0 := by
  induction l with
  | nil => simp
  | cons x xs ih => simpa using Or.inr ih

lemma foldl_max_eq_max_foldr (xs : List ℚ) (x : ℚ) (hx : 0 ≤ x)
    (hxs : ∀ q ∈ xs, 0 ≤ q) :
    xs.foldl max x = max x (xs.foldr max 0) := by
  induction xs generalizing x with
  | nil =>
    simpa using (max_eq_left hx).symm
  | cons y ys ih =>
    have hy : 0 ≤ y := hxs y (List.mem_cons_self _ _)
    have hys : ∀ q ∈ ys, 0 ≤ q := fun q hq => hxs q (List.mem_cons_of_mem _ hq)
    have h1 : (y :: ys).foldl max x = ys.foldl max (max x y) := rfl
    rw [h1, ih (max x y) (le_max_of_le_left hx) hys]
    simp [List.foldr_cons, max_assoc]

lemma maxOr0_eq_foldr (l : List ℚ) (h : ∀ q ∈ l, 0 ≤ q) :
    maxOr0 l = l.foldr max 0 := by
  cases l with
  | nil => rfl
  | cons x xs =>
    have hx : 0 ≤ x := h x (List.mem_cons_self _ _)
    have hxs : ∀ q ∈ xs, 0 ≤ q := fun q hq => h q (List.mem_cons_of_mem _ hq)
    have := foldl_max_eq_max_foldr xs x hx hxs
    simpa [maxOr0] using this

lemma foldr_max_zero_append (a b : List ℚ) :
    (a ++ b).foldr max 0 = max (a.foldr max 0) (b.foldr max 0) := by
  induction a with
  | nil => simpa using (max_eq_right (foldr_max_zero_nonneg b)).symm
  | cons x xs ih => simp [List.foldr_cons, ih, max_assoc]

lemma toStepTime_add_int_div20 (x : ℚ) (k : ℤ) :
    toStepTime (x + (k : ℚ) / 20) = toStepTime x + (k : ℚ) / 20 := by
  unfold toStepTime
  have h : (x + (k : ℚ) / 20) * 20 + 1/2 = (x * 20 + 1/2) + (k : ℚ) := by ring
  rw [h, Int.floor_add_int]
  push_cast
  ring

lemma toStepTime_sub_int_div20 (x : ℚ) (k : ℤ) :
    toStepTime (x - (k : ℚ) / 20) = toStepTime x - (k : ℚ) / 20 := by
  have h := toStepTime_add_int_div20 x (-k)
  push_cast at h
  rw [show x - (k : ℚ) / 20 = x + -(k : ℚ) / 20 from by ring]
  rw [h]
  ring

lemma toStepTime_le_add_half_step (x : ℚ) : toStepTime x ≤ x + 1/40 := by
  unfold toStepTime
  have h := Int.floor_le (x * 20 + 1/2)
  have h20 : (0 : ℚ) < 20 := by norm_num
  rw [div_le_iff₀ h20]
  linarith

lemma toStepTime_nonneg (x : ℚ) (hx : 0 ≤ x) : 0 ≤ toStepTime x := by
  unfold toStepTime
  have h : (0 : ℤ) ≤ ⌊x * 20 + 1/2⌋ := Int.floor_nonneg.mpr (by linarith)
  have h' : (0 : ℚ) ≤ (⌊x * 20 + 1/2⌋ : ℚ) := by exact_mod_cast h
  positivity

/- ------------------------------------------------------------------ -/
/- Claim theorems.                                                     -/
/- ------------------------------------------------------------------ -/

/-- C1.  `projectDuration()` returns the maximum over all clips of
`start + duration` and all overlays of `start + duration`; when there are
no clips and no overlays it returns `0`.  The right-hand side
`foldr max 0` is exactly ("maximum of all the listed end times, `0` when
none"); the non-negativity hypothesis records that clips and overlays sit at
non-negative positions with non-negative lengths (the data-model bounds;
`Math.max(emptySideDefault 0, otherSide)` would mask a negative maximum
otherwise). -/
theorem projectDuration_is_max_end (clips : List Clip) (overlays : List OverlayItem)
    (h : ∀ q ∈ clips.map clipEnd ++ overlays.map overlayEnd, 0 ≤ q) :
    projectDuration clips overlays
      = (clips.map clipEnd ++ overlays.map overlayEnd).foldr max 0 := by
  have hc : ∀ q ∈ clips.map clipEnd, 0 ≤ q := fun q hq =>
    h q (List.mem_append_left _ hq)
  have ho : ∀ q ∈ overlays.map overlayEnd, 0 ≤ q := fun q hq =>
    h q (List.mem_append_right _ hq)
  rw [projectDuration, maxOr0_eq_foldr _ hc, maxOr0_eq_foldr _ ho,
    foldr_max_zero_append]

/-- C1 witness: one video clip ending at 5 and one overlay ending at 7;
the project duration is their common maximum. -/
theorem projectDuration_is_max_end_witness :
    (∀ q ∈ [Clip.mk ClipKind.video 0 5 0 10 1 false 1].map clipEnd
        ++ [OverlayItem.mk OverlayKind.title ("hi") 4 3 50 20 52 "#FFFFFF" "transparent"].map overlayEnd,
      0 ≤ q) ∧
    projectDuration [Clip.mk ClipKind.video 0 5 0 10 1 false 1]
        [OverlayItem.mk OverlayKind.title ("hi") 4 3 50 20 52 "#FFFFFF" "transparent"]
      = ([Clip.mk ClipKind.video 0 5 0 10 1 false 1].map clipEnd
          ++ [OverlayItem.mk OverlayKind.title ("hi") 4 3 50 20 52 "#FFFFFF" "transparent"].map overlayEnd).foldr max 0 :=
  ⟨by norm_num [clipEnd, overlayEnd],
    projectDuration_is_max_end _ _ (by norm_num [clipEnd, overlayEnd])⟩

/-- Reduction of the non-image trim-left gesture when no clamp binds: the
source offset clamp `[0, sourceDuration - MIN_CLIP_DURATION]` is inactive
(`h1`, `h2`), as are the `max 0` on the new start (`h3`) and the
`max MIN_CLIP_DURATION` on the new duration (`h4`). -/
lemma onPointerMoveClip_trimLeft_noClamp (clip : Clip) (rawDelta : ℚ)
    (hkind : clip.kind ≠ ClipKind.image)
    (h1 : 0 ≤ clip.sourceOffset + toStepTime rawDelta)
    (h2 : clip.sourceOffset + toStepTime rawDelta ≤ clip.sourceDuration - MIN_CLIP_DURATION)
    (h3 : 0 ≤ toStepTime (clip.start + toStepTime rawDelta))
    (h4 : MIN_CLIP_DURATION ≤ toStepTime (clip.duration - toStepTime rawDelta)) :
    onPointerMoveClip DragMode.trimLeft clip rawDelta =
      { clip with
          sourceOffset := toStepTime (clip.sourceOffset + toStepTime rawDelta),
          start := toStepTime (clip.start + toStepTime rawDelta),
          duration := toStepTime (clip.duration - toStepTime rawDelta) } := by
  simp only [onPointerMoveClip, hkind, if_false]
  rw [min_eq_left h2, max_eq_right h1, add_sub_cancel_left]
  rw [max_eq_right h3, max_eq_right h4]

/-- C2 (amended).  For a non-image clip and a trim-left drag whose delta
stays within the source bounds (no clamp at source offset `0`, at
`sourceDuration - MIN_CLIP_DURATION`, at start `0`, or at
`MIN_CLIP_DURATION`), the timeline end time after the gesture equals
`toStepTime start + toStepTime duration`; in particular the end time
`start + duration` is preserved exactly when `start` and `duration` are
already aligned to the 1/20 s quantization step.  (The original claim —
preservation for every such clip — fails for step-unaligned clips, see the
counterexample.) -/
theorem trimLeft_preserves_end_time (clip : Clip) (rawDelta : ℚ)
    (hkind : clip.kind ≠ ClipKind.image)
    (h1 : 0 ≤ clip.sourceOffset + toStepTime rawDelta)
    (h2 : clip.sourceOffset + toStepTime rawDelta ≤ clip.sourceDuration - MIN_CLIP_DURATION)
    (h3 : 0 ≤ toStepTime (clip.start + toStepTime rawDelta))
    (h4 : MIN_CLIP_DURATION ≤ toStepTime (clip.duration - toStepTime rawDelta)) :
    clipEnd (onPointerMoveClip DragMode.trimLeft clip rawDelta)
        = toStepTime clip.start + toStepTime clip.duration
      ∧ (toStepTime clip.start = clip.start → toStepTime clip.duration = clip.duration →
          clipEnd (onPointerMoveClip DragMode.trimLeft clip rawDelta) = clipEnd clip) := by
  have hred := onPointerMoveClip_trimLeft_noClamp clip rawDelta hkind h1 h2 h3 h4
  obtain ⟨k, hk⟩ : ∃ m : ℤ, toStepTime rawDelta = (m : ℚ) / 20 := ⟨_, rfl⟩
  have hstart : (onPointerMoveClip DragMode.trimLeft clip rawDelta).start
      = toStepTime (clip.start + toStepTime rawDelta) := by rw [hred]
  have hdur : (onPointerMoveClip DragMode.trimLeft clip rawDelta).duration
      = toStepTime (clip.duration - toStepTime rawDelta) := by rw [hred]
  have hmain : clipEnd (onPointerMoveClip DragMode.trimLeft clip rawDelta)
      = toStepTime clip.start + toStepTime clip.duration := by
    unfold clipEnd
    rw [hstart, hdur, hk, toStepTime_add_int_div20, toStepTime_sub_int_div20]
    ring
  refine ⟨hmain, fun hs hd => ?_⟩
  rw [hmain, hs, hd, clipEnd]

/-- C2 counterexample: the video clip with step-unaligned
`start = 0.01`, `duration = 1.01` (source offset 1 of 10 s of source), and
the in-bounds delta `0.05`, satisfies every no-clamp hypothesis of the
claim, yet the timeline end moves from `1.02` to `1`. -/
theorem trimLeft_preserves_end_time_counterexample :
    (Clip.mk ClipKind.video (1/100) (101/100) 1 10 1 false 1).kind ≠ ClipKind.image
    ∧ 0 ≤ (Clip.mk ClipKind.video (1/100) (101/100) 1 10 1 false 1).sourceOffset + toStepTime (1/20)
    ∧ (Clip.mk ClipKind.video (1/100) (101/100) 1 10 1 false 1).sourceOffset + toStepTime (1/20)
        ≤ (Clip.mk ClipKind.video (1/100) (101/100) 1 10 1 false 1).sourceDuration - MIN_CLIP_DURATION
    ∧ 0 ≤ toStepTime ((Clip.mk ClipKind.video (1/100) (101/100) 1 10 1 false 1).start + toStepTime (1/20))
    ∧ MIN_CLIP_DURATION ≤ toStepTime ((Clip.mk ClipKind.video (1/100) (101/100) 1 10 1 false 1).duration - toStepTime (1/20))
    ∧ clipEnd (onPointerMoveClip DragMode.trimLeft (Clip.mk ClipKind.video (1/100) (101/100) 1 10 1 false 1) (1/20))
        ≠ clipEnd (Clip.mk ClipKind.video (1/100) (101/100) 1 10 1 false 1) := by
  have hki : (ClipKind.video = ClipKind.image) = False := by simp
  refine ⟨by simp, ?_, ?_, ?_, ?_, ?_⟩ <;>
    norm_num [toStepTime, onPointerMoveClip, clipEnd, MIN_CLIP_DURATION, min_def, max_def, hki]

/-- C2 witness: a step-aligned video clip (start 1, duration 2) trimmed
left by one step keeps its timeline end time `3`. -/
theorem trimLeft_preserves_end_time_witness :
    clipEnd (onPointerMoveClip DragMode.trimLeft (Clip.mk ClipKind.video 1 2 1 10 1 false 1) (1/20))
      = clipEnd (Clip.mk ClipKind.video 1 2 1 10 1 false 1) :=
  (trimLeft_preserves_end_time (Clip.mk ClipKind.video 1 2 1 10 1 false 1) (1/20)
      (by simp) (by norm_num [toStepTime]) (by norm_num [toStepTime, MIN_CLIP_DURATION])
      (by norm_num [toStepTime]) (by norm_num [toStepTime, MIN_CLIP_DURATION])).2
    (by norm_num [toStepTime]) (by norm_num [toStepTime])

/-- C3 (amended).  A single mutation — move, trim-left, trim-right, or an
inspector edit of start/duration/volume/sourceOffset — preserves
`duration ≥ MIN_CLIP_DURATION` and, for video/audio clips,
`sourceOffset ∈ [0, sourceDuration - MIN_CLIP_DURATION + 1/40]`.  The
`1/40` slack is forced by trim-left, which stores
`toStepTime(clampedOffset)` and can round up to half a quantization step
past the clamp bound (see the counterexample); every other path respects
the exact bound `sourceDuration - MIN_CLIP_DURATION` of the original
claim.  `hsd` is the import-time fact that a playable source is at least
`MIN_CLIP_DURATION` long (otherwise the clamp interval is empty). -/
theorem applyClipMutation_wellFormed (m : ClipMutation) (c : Clip)
    (hsd : c.kind ≠ ClipKind.image → MIN_CLIP_DURATION ≤ c.sourceDuration)
    (h : clipWellFormedQuantized c) :
    clipWellFormedQuantized (applyClipMutation m c) := by
  obtain ⟨hdur, hoff⟩ := h
  cases m with
  | drag mode rawDelta =>
    cases mode with
    | move => exact ⟨hdur, hoff⟩
    | trimRight =>
      refine ⟨?_, hoff⟩
      show MIN_CLIP_DURATION ≤ min
        (if c.kind = ClipKind.image then 120
          else max MIN_CLIP_DURATION (c.sourceDuration - c.sourceOffset))
        (max MIN_CLIP_DURATION (toStepTime (c.duration + toStepTime rawDelta)))
      refine le_min ?_ (le_max_left _ _)
      split
      · norm_num [MIN_CLIP_DURATION]
      · exact le_max_left _ _
    | trimLeft =>
      by_cases hk : c.kind = ClipKind.image
      · simp only [applyClipMutation, onPointerMoveClip, hk, if_true, clipWellFormedQuantized]
        exact ⟨le_max_left _ _, fun hki => absurd rfl hki⟩
      · have hB : (0:ℚ) ≤ c.sourceDuration - MIN_CLIP_DURATION := by
          have := hsd hk
          linarith
        simp only [applyClipMutation, onPointerMoveClip, hk, if_false, clipWellFormedQuantized]
        refine ⟨le_max_left _ _, fun _ => ⟨?_, ?_⟩⟩
        · exact toStepTime_nonneg _ (le_max_left 0 _)
        · have hle : max 0 (min (c.sourceOffset + toStepTime rawDelta)
              (c.sourceDuration - MIN_CLIP_DURATION)) ≤ c.sourceDuration - MIN_CLIP_DURATION :=
            max_le hB (min_le_right _ _)
          have hstep := toStepTime_le_add_half_step (max 0 (min (c.sourceOffset + toStepTime rawDelta)
              (c.sourceDuration - MIN_CLIP_DURATION)))
          linarith
  | field f value =>
    cases f with
    | start => exact ⟨hdur, hoff⟩
    | duration =>
      refine ⟨?_, hoff⟩
      show MIN_CLIP_DURATION ≤ min (max MIN_CLIP_DURATION value)
        (if c.kind = ClipKind.image then max MIN_CLIP_DURATION value
          else max MIN_CLIP_DURATION (c.sourceDuration - c.sourceOffset))
      refine le_min (le_max_left _ _) ?_
      split
      · exact le_max_left _ _
      · exact le_max_left _ _
    | sourceOffset =>
      by_cases hk : c.kind = ClipKind.image
      · simp only [applyClipMutation, updateSelectedClipField, hk, if_true, clipWellFormedQuantized]
        refine ⟨hdur, fun hki => absurd rfl hki⟩
      · have hB : (0:ℚ) ≤ c.sourceDuration - MIN_CLIP_DURATION := by
          have := hsd hk
          linarith
        simp only [applyClipMutation, updateSelectedClipField, hk, if_false, clipWellFormedQuantized]
        refine ⟨le_min hdur (le_max_left _ _), fun _ => ⟨le_max_left 0 _, ?_⟩⟩
        have hle : max 0 (min value (c.sourceDuration - MIN_CLIP_DURATION))
            ≤ c.sourceDuration - MIN_CLIP_DURATION :=
          max_le hB (min_le_right _ _)
        linarith
    | volume =>
      by_cases hk : c.kind = ClipKind.video
      · simp only [applyClipMutation, updateSelectedClipField, hk, if_true, clipWellFormedQuantized]
        exact ⟨hdur, fun _ => hoff (by simp [hk])⟩
      · simp only [applyClipMutation, updateSelectedClipField, hk, if_false, clipWellFormedQuantized]
        exact ⟨hdur, hoff⟩

/-- C3 counterexample: the video clip with `sourceDuration = 1.03` and
`sourceOffset = 0` satisfies the claimed invariant, but after a far
trim-left drag the stored offset is `toStepTime(0.83) = 0.85`, strictly
above `sourceDuration - MIN_CLIP_DURATION = 0.83`. -/
theorem applyClipMutation_wellFormed_counterexample :
    clipWellFormed (Clip.mk ClipKind.video 0 (4/5) 0 (103/100) 1 false 1)
    ∧ ¬ clipWellFormed (applyClipMutation (ClipMutation.drag DragMode.trimLeft 2)
        (Clip.mk ClipKind.video 0 (4/5) 0 (103/100) 1 false 1)) := by
  have hki : (ClipKind.video = ClipKind.image) = False := by simp
  constructor
  · exact ⟨by norm_num [MIN_CLIP_DURATION], fun _ => ⟨le_refl 0, by norm_num [MIN_CLIP_DURATION]⟩⟩
  · intro hinv
    have h2 := (hinv.2 (by simp [applyClipMutation, onPointerMoveClip, hki])).2
    norm_num [applyClipMutation, onPointerMoveClip, toStepTime, MIN_CLIP_DURATION,
      min_def, max_def, hki] at h2

/-- C3 witness: moving a well-formed 1 s video clip by 1 s keeps the
(quantized) invariant. -/
theorem applyClipMutation_wellFormed_witness :
    ((Clip.mk ClipKind.video 0 1 0 10 1 false 1).kind ≠ ClipKind.image →
      MIN_CLIP_DURATION ≤ (Clip.mk ClipKind.video 0 1 0 10 1 false 1).sourceDuration)
    ∧ clipWellFormedQuantized (Clip.mk ClipKind.video 0 1 0 10 1 false 1)
    ∧ clipWellFormedQuantized (applyClipMutation (ClipMutation.drag DragMode.move 1)
        (Clip.mk ClipKind.video 0 1 0 10 1 false 1)) :=
  ⟨fun _ => by norm_num [MIN_CLIP_DURATION],
   ⟨by norm_num [MIN_CLIP_DURATION], fun _ => ⟨le_refl 0, by norm_num [MIN_CLIP_DURATION]⟩⟩,
   applyClipMutation_wellFormed _ _ (fun _ => by norm_num [MIN_CLIP_DURATION])
     ⟨by norm_num [MIN_CLIP_DURATION], fun _ => ⟨le_refl 0, by norm_num [MIN_CLIP_DURATION]⟩⟩⟩

/-- When no chunk contains a word, the chunk loop emits nothing (each
chunk is skipped at the empty-text check or at the empty-word-list
check). -/
lemma buildCuesAux_no_words (chunks : List AsrChunk)
    (h : ∀ c ∈ chunks, splitWords (normalizeCaptionText c.text) = []) :
    ∀ cursor, buildCuesAux chunks cursor = [] := by
  induction chunks with
  | nil => intro cursor; rfl
  | cons chunk rest ih =>
    intro cursor
    have hw := h chunk (List.mem_cons_self _ _)
    have hrest : ∀ c ∈ rest, splitWords (normalizeCaptionText c.text) = [] :=
      fun c hc => h c (List.mem_cons_of_mem _ hc)
    by_cases ht : normalizeCaptionText chunk.text = ""
    · simp only [buildCuesAux, ht, if_true, eq_self_iff_true]
      exact ih hrest cursor
    · simp only [buildCuesAux, ht, if_false, hw, List.isEmpty_nil, if_true]
      exact ih hrest _

/-- C5.  If no chunk's text contains a word after whitespace
normalization (in particular for the empty chunk list), `buildCaptionCues`
returns exactly the sentinel cue `[0, max(2, fallbackDuration))`; and, for
every input whatsoever, `buildCaptionCues` never returns an empty cue
list. -/
theorem buildCaptionCues_placeholder (chunks : List AsrChunk) (fallbackDuration : ℚ)
    (h : ∀ c ∈ chunks, splitWords (normalizeCaptionText c.text) = []) :
    buildCaptionCues chunks fallbackDuration
        = [CaptionCue.mk 0 (max 2 fallbackDuration) "No speech detected"]
      ∧ ∀ chunks2 : List AsrChunk, ∀ fb2 : ℚ, buildCaptionCues chunks2 fb2 ≠ [] := by
  constructor
  · simp only [buildCaptionCues, buildCuesAux_no_words chunks h 0, List.isEmpty_nil, if_true]
  · intro chunks2 fb2
    simp only [buildCaptionCues]
    split
    · exact List.cons_ne_nil _ _
    · next hne =>
      intro hcontra
      rw [hcontra] at hne
      simp at hne

/-- C5 witness: a single all-whitespace chunk yields exactly the sentinel
cue over `[0, max(2, 4)) = [0, 4)`. -/
theorem buildCaptionCues_placeholder_witness :
    buildCaptionCues [AsrChunk.mk (" ") none] 4
      = [CaptionCue.mk 0 (max 2 4) "No speech detected"] :=
  (buildCaptionCues_placeholder [AsrChunk.mk (" ") none] 4 (by decide)).1

/-- C10.  The cursor discipline of `buildCaptionCues`: (1) a chunk whose
text normalizes to empty changes neither the emitted cues nor the cursor —
even when it carries an explicit timestamp, which is never read; (2) a
word-carrying chunk without a timestamp is assigned the span
`[cursor, cursor + 2)` exactly and advances the cursor to `cursor + 2`;
(3) a word-carrying chunk with timestamp `[s, e]` is emitted over the
adjusted span `[max(0, s), max(max(0, s) + 0.2, e))` and advances the
cursor to that adjusted end.  Together with `buildCaptionCues` starting
the loop at cursor `0`, the cursor always equals the adjusted end of the
most recent word-producing chunk (initially `0`). -/
theorem buildCuesAux_cursor_step (chunk : AsrChunk) (rest : List AsrChunk) (cursor : ℚ) :
    (normalizeCaptionText chunk.text = "" →
      buildCuesAux (chunk :: rest) cursor = buildCuesAux rest cursor)
    ∧ (normalizeCaptionText chunk.text ≠ "" → chunk.timestamp = none → 0 ≤ cursor →
      buildCuesAux (chunk :: rest) cursor
        = subdivideWords cursor (cursor + 2) (splitWords (normalizeCaptionText chunk.text))
            ++ buildCuesAux rest (cursor + 2))
    ∧ (∀ s e : ℚ, normalizeCaptionText chunk.text ≠ "" → chunk.timestamp = some (s, e) →
      buildCuesAux (chunk :: rest) cursor
        = subdivideWords (max 0 s) (max (max 0 s + 1/5) e)
            (splitWords (normalizeCaptionText chunk.text))
            ++ buildCuesAux rest (max (max 0 s + 1/5) e)) := by
  refine ⟨?_, ?_, ?_⟩
  · intro ht
    simp only [buildCuesAux, ht, if_true, eq_self_iff_true]
  · intro ht hts hcur
    have hsafeStart : max 0 cursor = cursor := max_eq_right hcur
    have hsafeEnd : max (cursor + 1/5) (cursor + 2) = cursor + 2 := max_eq_right (by linarith)
    by_cases hw : (splitWords (normalizeCaptionText chunk.text)).isEmpty
    · have hwnil : splitWords (normalizeCaptionText chunk.text) = [] := by
        simpa using hw
      simp only [buildCuesAux, ht, if_false, hts, hsafeStart, hsafeEnd, hwnil,
        List.isEmpty_nil, if_true, subdivideWords, mapWithIndex, mapWithIndexFrom,
        List.nil_append]
    · have hwb : (splitWords (normalizeCaptionText chunk.text)).isEmpty = false := by
        simpa using hw
      simp only [buildCuesAux, ht, if_false, hts, hsafeStart, hsafeEnd, hwb,
        Bool.false_eq_true]
  · intro s e ht hts
    by_cases hw : (splitWords (normalizeCaptionText chunk.text)).isEmpty
    · have hwnil : splitWords (normalizeCaptionText chunk.text) = [] := by
        simpa using hw
      simp only [buildCuesAux, ht, if_false, hts, hwnil, List.isEmpty_nil, if_true,
        subdivideWords, mapWithIndex, mapWithIndexFrom, List.nil_append]
    · have hwb : (splitWords (normalizeCaptionText chunk.text)).isEmpty = false := by
        simpa using hw
      simp only [buildCuesAux, ht, if_false, hts, hwb, Bool.false_eq_true]

/-- C10 witness: a timestampless chunk ("hi") entering at cursor 5 is laid
out over `[5, 5 + 2)` and the loop continues at cursor `5 + 2`. -/
theorem buildCuesAux_cursor_step_witness :
    buildCuesAux [AsrChunk.mk ("hi") none] 5
      = subdivideWords 5 (5 + 2) (splitWords (normalizeCaptionText ("hi")))
          ++ buildCuesAux [] (5 + 2) :=
  (buildCuesAux_cursor_step (AsrChunk.mk ("hi") none) [] 5).2.1 (by decide) rfl (by norm_num)

/-- C4.  The three-chunk scenario: `"hello world"` over `[0, 2]`, an empty
chunk over `[2, 3]`, and `"goodbye"` over `[3, 4]`, with fallback duration
4, produce exactly the cues `"hello"` on `[0, 1)`, `"world"` on `[1, 2)`
and `"goodbye"` on `[3, 4)`. -/
theorem buildCaptionCues_scenario :
    buildCaptionCues
        [AsrChunk.mk ("hello world") (some (0, 2)), AsrChunk.mk ("") (some (2, 3)),
          AsrChunk.mk ("goodbye") (some (3, 4))] 4
      = [CaptionCue.mk 0 1 "hello", CaptionCue.mk 1 2 "world", CaptionCue.mk 3 4 "goodbye"] := by
  have h1 : normalizeCaptionText ("hello world") = "hello world" := by decide
  have h2 : normalizeCaptionText ("") = "" := by decide
  have h3 : normalizeCaptionText ("goodbye") = "goodbye" := by decide
  have h4 : splitWords ("hello world") = ["hello", "world"] := by decide
  have h5 : splitWords ("goodbye") = ["goodbye"] := by decide
  have h6 : ¬("hello world" = "") := by decide
  have h7 : ¬("goodbye" = "") := by decide
  simp only [buildCaptionCues, buildCuesAux, h1, h2, h3, h4, h5, h6, h7, if_true, if_false,
    eq_self_iff_true, List.isEmpty_cons, List.isEmpty_nil, subdivideWords, mapWithIndex,
    mapWithIndexFrom, List.length_cons, List.length_nil]
  norm_num [CaptionCue.mk.injEq, min_def, max_def]

/-- C6 (amended).  On a cue list in which every cue's text is a single
word after whitespace normalization AND every cue already satisfies the
sanitization bounds `start ≥ 0` and `end ≥ start + 0.2`,
`normalizeStoredCaptionCues` preserves every boundary and keeps the
(normalized) word texts; only the opaque ids change.  (Without the bound
hypotheses the claim fails: a stored cue shorter than `0.2` s is widened,
see the counterexample.) -/
theorem normalizeStoredCaptionCues_idem (cues : List CaptionCue)
    (h : ∀ c ∈ cues, normalizeCaptionText c.text ≠ ""
        ∧ splitWords (normalizeCaptionText c.text) = [normalizeCaptionText c.text]
        ∧ 0 ≤ c.start ∧ c.start + 1/5 ≤ c.endTime) :
    normalizeStoredCaptionCues cues
      = cues.map (fun c => CaptionCue.mk c.start c.endTime (normalizeCaptionText c.text)) := by
  induction cues with
  | nil => rfl
  | cons cue rest ih =>
    obtain ⟨hne, hsingle, hstart, hend⟩ := h cue (List.mem_cons_self _ _)
    have hrest : ∀ c ∈ rest, normalizeCaptionText c.text ≠ ""
        ∧ splitWords (normalizeCaptionText c.text) = [normalizeCaptionText c.text]
        ∧ 0 ≤ c.start ∧ c.start + 1/5 ≤ c.endTime :=
      fun c hc => h c (List.mem_cons_of_mem _ hc)
    have hcue : normalizeStoredCue cue
        = [CaptionCue.mk cue.start cue.endTime (normalizeCaptionText cue.text)] := by
      simp [normalizeStoredCue, hsingle, hne, max_eq_right hstart, max_eq_right hend]
      linarith
    simp only [normalizeStoredCaptionCues, hcue, ih hrest, List.map_cons, List.singleton_append]

/-- C6 counterexample: the single-word cue `"a"` on the sub-minimum span
`[0, 0.1)` is widened to `[0, 0.2)` by re-normalization, so boundaries are
not preserved. -/
theorem normalizeStoredCaptionCues_idem_counterexample :
    splitWords (normalizeCaptionText ("a")) = [normalizeCaptionText ("a")]
    ∧ normalizeStoredCaptionCues [CaptionCue.mk 0 (1/10) "a"] ≠ [CaptionCue.mk 0 (1/10) "a"] := by
  refine ⟨by decide, ?_⟩
  have hn : normalizeCaptionText ("a") = "a" := by decide
  have hs : splitWords ("a") = ["a"] := by decide
  have hne : ¬(("a" : String) = "") := by decide
  have heval : normalizeStoredCaptionCues [CaptionCue.mk 0 (1/10) "a"]
      = [CaptionCue.mk 0 (1/5) "a"] := by
    simp [normalizeStoredCaptionCues, normalizeStoredCue, hn, hs, hne]
    norm_num [max_def]
  rw [heval]
  intro hcontra
  have := List.head_eq_of_cons_eq hcontra
  rw [CaptionCue.mk.injEq] at this
  norm_num at this

/-- C6 witness: a well-formed one-word cue list is returned unchanged. -/
theorem normalizeStoredCaptionCues_idem_witness :
    (∀ c ∈ [CaptionCue.mk 0 1 "hi"], normalizeCaptionText c.text ≠ ""
        ∧ splitWords (normalizeCaptionText c.text) = [normalizeCaptionText c.text]
        ∧ 0 ≤ c.start ∧ c.start + 1/5 ≤ c.endTime)
    ∧ normalizeStoredCaptionCues [CaptionCue.mk 0 1 "hi"] = [CaptionCue.mk 0 1 "hi"] := by
  have hh : ∀ c ∈ [CaptionCue.mk 0 1 "hi"], normalizeCaptionText c.text ≠ ""
      ∧ splitWords (normalizeCaptionText c.text) = [normalizeCaptionText c.text]
      ∧ 0 ≤ c.start ∧ c.start + 1/5 ≤ c.endTime := by
    intro c hc
    simp only [List.mem_singleton] at hc
    subst hc
    exact ⟨by decide, by decide, by norm_num, by norm_num⟩
  refine ⟨hh, ?_⟩
  rw [normalizeStoredCaptionCues_idem _ hh]
  simp [(by decide : normalizeCaptionText ("hi") = "hi")]

/-- C7.  One non-forced synchronizer pass over a playable clip: when the
clip's interval contains the timeline time and the element is within the
`0.2` s tolerance of the clip-local position
`T - start + sourceOffset`, the play position is left untouched; when the
drift exceeds the tolerance the position is set to exactly the clip-local
position; and a clip whose interval does not contain the time is paused. -/
theorem syncClipMedia_tolerance (clip : Clip) (element : MediaElement) (T : ℚ) (playing : Bool) :
    (inRange T clip.start clip.duration = true →
      ((|element.currentTime - (T - clip.start + clip.sourceOffset)| ≤ 1/5 →
        (syncClipMedia clip element T playing false).currentTime = element.currentTime)
      ∧ (1/5 < |element.currentTime - (T - clip.start + clip.sourceOffset)| →
        (syncClipMedia clip element T playing false).currentTime
          = T - clip.start + clip.sourceOffset)))
    ∧ (inRange T clip.start clip.duration = false →
      (syncClipMedia clip element T playing false).paused = true) := by
  constructor
  · intro hin
    constructor
    · intro htol
      have hnot : ¬((5:ℚ)⁻¹ < |element.currentTime - (T - clip.start + clip.sourceOffset)|) := by
        rw [show ((5:ℚ)⁻¹ : ℚ) = 1/5 from by norm_num]
        exact not_lt.mpr htol
      cases playing <;> simp [syncClipMedia, hin, hnot]
    · intro hlt
      have hlt2 : (5:ℚ)⁻¹ < |element.currentTime - (T - clip.start + clip.sourceOffset)| := by
        rw [show ((5:ℚ)⁻¹ : ℚ) = 1/5 from by norm_num]
        exact hlt
      cases playing <;> simp [syncClipMedia, hin, hlt2]
  · intro hout
    cases playing <;> simp [syncClipMedia, hout]

/-- C7 witness: at time 3 a video clip `[0, 5)` with zero source offset
has local position 3; an element at `3.1` is within tolerance and its
position is not rewritten. -/
theorem syncClipMedia_tolerance_witness :
    inRange 3 (Clip.mk ClipKind.video 0 5 0 10 1 false 1).start
        (Clip.mk ClipKind.video 0 5 0 10 1 false 1).duration = true
    ∧ |(MediaElement.mk (31/10) true 1).currentTime
        - ((3:ℚ) - (Clip.mk ClipKind.video 0 5 0 10 1 false 1).start
            + (Clip.mk ClipKind.video 0 5 0 10 1 false 1).sourceOffset)| ≤ 1/5
    ∧ (syncClipMedia (Clip.mk ClipKind.video 0 5 0 10 1 false 1)
        (MediaElement.mk (31/10) true 1) 3 true false).currentTime = 31/10 := by
  refine ⟨by norm_num [inRange], by norm_num [abs_le], ?_⟩
  exact ((syncClipMedia_tolerance (Clip.mk ClipKind.video 0 5 0 10 1 false 1)
      (MediaElement.mk (31/10) true 1) 3 true).1 (by norm_num [inRange])).1
    (by norm_num [abs_le])

/-- C9.  A zero-byte recorded buffer fails the conversion before any
network request: for every possible network oracle, `convertWebmToMp4`
returns the descriptive error without consulting it; and the server export
handler rejects an empty request body with a 400 error for every ffmpeg
configuration and transcoder oracle, before either is consulted. -/
theorem emptyBuffer_rejected :
    (∀ fetchExportMp4 : List ℕ → Except String (List ℕ),
      convertWebmToMp4 [] fetchExportMp4
        = Except.error ("Rendered video buffer is empty. Please add at least one playable clip and retry."))
    ∧ (∀ (ffmpegStatic : Option String) (runFfmpeg : String → List ℕ → Except String (List ℕ)),
      exportMp4Handler [] ffmpegStatic runFfmpeg = Except.error (400, "Missing video payload")) :=
  ⟨fun _ => rfl, fun _ _ => rfl⟩

/-- Lemma: `findIndexFrom` only looks at the predicate's values on the list. -/
lemma findIndexFrom_congr {α : Type} (p q : α → Bool) (l : List α)
    (h : ∀ a ∈ l, p a = q a) : findIndexFrom p l = findIndexFrom q l := by
  induction l with
  | nil => rfl
  | cons a rest ih =>
    have ha := h a (List.mem_cons_self _ _)
    have hrest : ∀ b ∈ rest, p b = q b := fun b hb => h b (List.mem_cons_of_mem _ hb)
    simp only [findIndexFrom, ha, ih hrest]

/-- Lemma: `mapWithIndexFrom` only looks at the function's values on the list. -/
lemma mapWithIndexFrom_congr {α β : Type} (f g : ℕ → α → β) (l : List α)
    (h : ∀ a ∈ l, ∀ i, f i a = g i a) :
    ∀ i, mapWithIndexFrom f i l = mapWithIndexFrom g i l := by
  induction l with
  | nil => intro i; rfl
  | cons a rest ih =>
    intro i
    have ha := h a (List.mem_cons_self _ _) i
    have hrest : ∀ b ∈ rest, ∀ j, f j b = g j b :=
      fun b hb => h b (List.mem_cons_of_mem _ hb)
    simp only [mapWithIndexFrom, ha, ih hrest]

/-- C8 (amended).  As long as every cue is at least `0.001` s long (every
cue the editor itself produces is at least `0.08` s long), the caption
window function agrees exactly with the claim's description
`captionWindowClaimed`: empty window when no cue's interval `[start, end)`
contains the time, otherwise the fixed 3-cue group of the first containing
index with exactly that cue active and progress
`(time - start)/(end - start)` clamped to `[0, 1]`.  (Without the length
hypothesis the claim's progress formula diverges from the code's
`max(0.001, end - start)` divisor, see the counterexample.) -/
theorem getCaptionWindowForTime_spec (captions : List CaptionCue) (time : ℚ)
    (hd : ∀ c ∈ captions, 1/1000 ≤ c.endTime - c.start) :
    getCaptionWindowForTime captions time = captionWindowClaimed captions time := by
  have hpred : ∀ c ∈ captions,
      inRange time c.start (c.endTime - c.start)
        = (decide (c.start ≤ time) && decide (time < c.endTime)) := by
    intro c _
    unfold inRange
    rw [show c.start + (c.endTime - c.start) = c.endTime from by ring]
  have hidx : findIndexFrom (fun cue => inRange time cue.start (cue.endTime - cue.start)) captions
      = findIndexFrom (fun cue => decide (cue.start ≤ time) && decide (time < cue.endTime)) captions :=
    findIndexFrom_congr _ _ _ hpred
  unfold getCaptionWindowForTime captionWindowClaimed
  rw [hidx]
  cases hfi : findIndexFrom (fun cue => decide (cue.start ≤ time) && decide (time < cue.endTime)) captions with
  | none => rfl
  | some activeIndex =>
    simp only [mapWithIndex]
    apply mapWithIndexFrom_congr
    intro cue hcue i
    have hmem : cue ∈ captions := List.mem_of_mem_drop (List.mem_of_mem_take hcue)
    have hdc := hd cue hmem
    have hmax : max (1/1000) (cue.endTime - cue.start) = cue.endTime - cue.start :=
      max_eq_right hdc
    simp only [hmax]

/-- C8 counterexample: a single cue of length `0.0005` containing the
query time `0.0004`; the code divides the elapsed time by the floored
divisor `0.001` (progress `0.4`), while the claim's formula divides by the
actual length (progress `0.8`), so the two windows differ. -/
theorem getCaptionWindowForTime_spec_counterexample :
    getCaptionWindowForTime [CaptionCue.mk 0 (1/2000) "a"] (1/2500)
      ≠ captionWindowClaimed [CaptionCue.mk 0 (1/2000) "a"] (1/2500) := by
  have hcode : getCaptionWindowForTime [CaptionCue.mk 0 (1/2000) "a"] (1/2500)
      = [CaptionWindowCue.mk (CaptionCue.mk 0 (1/2000) "a") true (2/5)] := by
    norm_num [getCaptionWindowForTime, findIndexFrom, inRange, mapWithIndex, mapWithIndexFrom,
      CAPTION_WINDOW_WORD_COUNT, min_def, max_def]
  have hclaim : captionWindowClaimed [CaptionCue.mk 0 (1/2000) "a"] (1/2500)
      = [CaptionWindowCue.mk (CaptionCue.mk 0 (1/2000) "a") true (4/5)] := by
    norm_num [captionWindowClaimed, findIndexFrom, mapWithIndex, mapWithIndexFrom,
      CAPTION_WINDOW_WORD_COUNT, min_def, max_def]
  rw [hcode, hclaim]
  intro hcontra
  have := List.head_eq_of_cons_eq hcontra
  rw [CaptionWindowCue.mk.injEq] at this
  norm_num at this

/-- C8 witness: four one-second cues and time 3.5 — the active index is 3,
its window is the singleton group `[3, 4)`, and code and claim agree. -/
theorem getCaptionWindowForTime_spec_witness :
    (∀ c ∈ [CaptionCue.mk 0 1 "a", CaptionCue.mk 1 2 "b", CaptionCue.mk 2 3 "c",
        CaptionCue.mk 3 4 "d"], 1/1000 ≤ c.endTime - c.start)
    ∧ getCaptionWindowForTime
        [CaptionCue.mk 0 1 "a", CaptionCue.mk 1 2 "b", CaptionCue.mk 2 3 "c",
          CaptionCue.mk 3 4 "d"] (7/2)
      = captionWindowClaimed
        [CaptionCue.mk 0 1 "a", CaptionCue.mk 1 2 "b", CaptionCue.mk 2 3 "c",
          CaptionCue.mk 3 4 "d"] (7/2) := by
  have hh : ∀ c ∈ [CaptionCue.mk 0 1 "a", CaptionCue.mk 1 2 "b", CaptionCue.mk 2 3 "c",
      CaptionCue.mk 3 4 "d"], 1/1000 ≤ c.endTime - c.start := by
    intro c hc
    simp only [List.mem_cons, List.mem_singleton, List.not_mem_nil, or_false] at hc
    rcases hc with rfl | rfl | rfl | rfl <;> norm_num
  exact ⟨hh, getCaptionWindowForTime_spec _ _ hh⟩

/-- C9 witness: with concrete (always-succeeding) oracles, the empty
buffer still produces the client-side error and the server-side 400. -/
theorem emptyBuffer_rejected_witness :
    convertWebmToMp4 [] (fun bytes => Except.ok bytes)
        = Except.error ("Rendered video buffer is empty. Please add at least one playable clip and retry.")
    ∧ exportMp4Handler [] (some ("ffmpeg")) (fun _ bytes => Except.ok bytes)
        = Except.error (400, "Missing video payload") :=
  ⟨emptyBuffer_rejected.1 _, emptyBuffer_rejected.2 _ _⟩
